import Mathlib

/-!
Verification development for the tab-whisperer auto-grouping and persistence
reconciliation engine.

The definitions below are a shallow embedding of the TypeScript source:
  * `src/lib/storage.ts`   — the `SavedTab` record and the group mutators;
  * `src/background.ts`    — the message handlers `APPLY_GROUPS`,
    `SAVE_OPEN_GROUPS`, `RENAME_GROUP`, `DELETE_GROUP`;
  * `src/lib/gemini.ts`    — model preference resolution (`pickBestModel`,
    `resolveUsableModel`) and the retry-once fallback wrapper shared by
    `summarizeTabs`, `groupTabsByIdStrict` and `summarizePage`;
  * `src/sidebar/Sidebar.tsx` — the fence-stripping step of `autoGroupSaved`.

JavaScript `Map` objects are embedded as association lists in key-insertion
order: `Map.set` replaces the value at an existing key in place and appends a
fresh key at the end, which is exactly what `mapSet` below does.  JavaScript
truthiness of strings (`""` is falsy) and of the optional `group` field
(`undefined` and `""` are both falsy) is embedded explicitly wherever the
source relies on it.
-/

namespace TabWhisperer

/-- `SavedTab` from `src/lib/storage.ts`: a persisted reference to a tab.
`group` is optional; `favIconUrl` is optional. -/
structure SavedTab where
  id : String
  title : String
  url : String
  favIconUrl : Option String
  savedAt : Nat
  group : Option String
deriving DecidableEq, Repr

/-- A live `chrome.tabs.Tab` as consumed by the handlers: `id`, `title`,
`url` and `favIconUrl` are all optional in the Chrome API. -/
structure ChromeTab where
  id : Option Nat
  title : Option String
  url : Option String
  favIconUrl : Option String
deriving DecidableEq, Repr

/-- JS `Map.set`: replace in place at the first matching key, else append. -/
def mapSet {α : Type} : List (String × α) → String → α → List (String × α)
  | [], k, v => [(k, v)]
  | p :: rest, k, v => if p.1 = k then (k, v) :: rest else p :: mapSet rest k v

/-- JS `Map.get`: the value at the first matching key, if any. -/
def mapGet {α : Type} : List (String × α) → String → Option α
  | [], _ => none
  | p :: rest, k => if p.1 = k then some p.2 else mapGet rest k

/-- The keys of an association list, in order. -/
def keysOf {α : Type} (m : List (String × α)) : List String := m.map Prod.fst

@[simp]
theorem keysOf_nil {α : Type} : keysOf ([] : List (String × α)) = [] := rfl

@[simp]
theorem keysOf_cons {α : Type} (p : String × α) (rest : List (String × α)) :
    keysOf (p :: rest) = p.1 :: keysOf rest := rfl

theorem mapGet_mapSet_self {α : Type} (m : List (String × α)) (k : String) (v : α) :
    mapGet (mapSet m k v) k = some v := by
  induction m with
  | nil => simp [mapSet, mapGet]
  | cons p rest ih =>
    by_cases h : p.1 = k
    · simp [mapSet, h, mapGet]
    · simp [mapSet, h, mapGet, ih]

theorem mapGet_mapSet_ne {α : Type} (m : List (String × α)) (k k' : String) (v : α)
    (hne : k' ≠ k) : mapGet (mapSet m k v) k' = mapGet m k' := by
  have hkk : ¬ k = k' := fun hh => hne hh.symm
  induction m with
  | nil => simp [mapSet, mapGet, hkk]
  | cons p rest ih =>
    by_cases h : p.1 = k
    · have hp : ¬ p.1 = k' := by rw [h]; exact hkk
      rw [mapSet, if_pos h]
      simp only [mapGet]
      rw [if_neg hkk, if_neg hp]
    · rw [mapSet, if_neg h]
      simp only [mapGet]
      by_cases h' : p.1 = k'
      · rw [if_pos h', if_pos h']
      · rw [if_neg h', if_neg h', ih]

theorem keysOf_mapSet {α : Type} (m : List (String × α)) (k : String) (v : α) :
    keysOf (mapSet m k v) =
      if k ∈ keysOf m then keysOf m else keysOf m ++ [k] := by
  induction m with
  | nil => simp [mapSet]
  | cons p rest ih =>
    by_cases h : p.1 = k
    · simp [mapSet, h]
    · have h' : ¬ k = p.1 := fun hh => h hh.symm
      simp only [mapSet, if_neg h, keysOf_cons, List.mem_cons, h', false_or]
      rw [ih]
      by_cases hmem : k ∈ keysOf rest
      · simp [hmem]
      · simp [hmem]

theorem length_keysOf {α : Type} (m : List (String × α)) :
    (keysOf m).length = m.length := by
  simp [keysOf]

theorem length_mapSet_le {α : Type} (m : List (String × α)) (k : String) (v : α) :
    (mapSet m k v).length ≤ m.length + 1 := by
  induction m with
  | nil => simp [mapSet]
  | cons p rest ih =>
    by_cases h : p.1 = k
    · simp [mapSet, h]
    · simp only [mapSet, h, if_false, List.length_cons]
      omega

theorem nodup_keysOf_mapSet {α : Type} (m : List (String × α)) (k : String) (v : α)
    (h : (keysOf m).Nodup) : (keysOf (mapSet m k v)).Nodup := by
  rw [keysOf_mapSet]
  by_cases hmem : k ∈ keysOf m
  · simpa [hmem] using h
  · simp [hmem, List.nodup_append, h]

theorem toFinset_keysOf_mapSet {α : Type} (m : List (String × α)) (k : String) (v : α) :
    (keysOf (mapSet m k v)).toFinset = insert k (keysOf m).toFinset := by
  rw [keysOf_mapSet]
  by_cases hmem : k ∈ keysOf m
  · rw [if_pos hmem, Finset.insert_eq_self.mpr (List.mem_toFinset.mpr hmem)]
  · rw [if_neg hmem]
    ext a
    simp [or_comm]

theorem mapGet_eq_none_of_not_mem {α : Type} (m : List (String × α)) (k : String)
    (h : k ∉ keysOf m) : mapGet m k = none := by
  induction m with
  | nil => rfl
  | cons p rest ih =>
    simp only [keysOf_cons, List.mem_cons] at h
    push_neg at h
    have hp : ¬ p.1 = k := fun hh => h.1 hh.symm
    simp only [mapGet, if_neg hp]
    exact ih h.2

theorem find?_eq_some_of_mapGet {α : Type} (m : List (String × α)) (k : String) (v : α)
    (h : mapGet m k = some v) : m.find? (fun p => p.1 == k) = some (k, v) := by
  induction m with
  | nil => simp [mapGet] at h
  | cons p rest ih =>
    by_cases hk : p.1 = k
    · simp only [mapGet, if_pos hk] at h
      have : p = (k, v) := by
        cases p
        simp only [Option.some.injEq] at h
        simp_all
      simp [List.find?, hk, this]
    · simp only [mapGet, if_neg hk] at h
      have hb : (p.1 == k) = false := by simpa using hk
      simp [List.find?, hb, ih h]

/-! ## Reconciliation Engine (`src/background.ts`) -/

/-- A `GroupingProposal` as handed to the handlers: the entry sequence of the
JS object `Record<string, string[]>` mapping group name to tab-id list. -/
def GroupingProposal : Type := List (String × List String)

/-- The reverse index `idToGroup` built identically by the `APPLY_GROUPS` and
`SAVE_OPEN_GROUPS` handlers: for each `(group, ids)` entry in order, `set`
every id to that group.  A duplicated id keeps its first insertion position
and ends up mapped to the last group listing it, as with a JS `Map`. -/
def buildIdToGroup (mapping : GroupingProposal) : List (String × String) :=
  mapping.foldl (fun m gp => gp.2.foldl (fun m' tid => mapSet m' tid gp.1) m) []

/-- The `APPLY_GROUPS` handler core: `next = all.map (t => { const g =
idToGroup.get(t.id); return g ? { ...t, group: g } : t; })`; the reported
`count` is `idToGroup.size`.  JS truthiness: when `g` is the empty string the
item is returned unchanged. -/
def applyGroups (mapping : GroupingProposal) (all : List SavedTab) :
    List SavedTab × Nat :=
  let idToGroup := buildIdToGroup mapping
  (all.map (fun t =>
      match mapGet idToGroup t.id with
      | some g => if g = "" then t else { t with group := some g }
      | none => t),
   idToGroup.length)

/-- The `byId` map of the `SAVE_OPEN_GROUPS` handler: live tabs keyed by
`String(t.id)`, skipping tabs whose `id` is null. -/
def buildById (openTabs : List ChromeTab) : List (String × ChromeTab) :=
  openTabs.foldl (fun m t =>
    match t.id with
    | some i => mapSet m (toString i) t
    | none => m) []

/-- The `have` map of the `SAVE_OPEN_GROUPS` handler:
`new Map(current.map(t => [String(t.id), t]))`. -/
def buildHave (current : List SavedTab) : List (String × SavedTab) :=
  current.foldl (fun m t => mapSet m t.id t) []

/-- The upserted entry constructed by `SAVE_OPEN_GROUPS` for live tab `t`
assigned to `group`: `title`/`url`/`favIconUrl` come from the live tab
(defaulting to `""`), `savedAt` is preserved from a previous entry when one
exists and stamped with the current time otherwise. -/
def upsertEntry (tid : String) (group : String) (t : ChromeTab)
    (prev : Option SavedTab) (now : Nat) : SavedTab :=
  { id := tid
    title := t.title.getD ""
    url := t.url.getD ""
    favIconUrl := some (t.favIconUrl.getD "")
    savedAt := match prev with
               | some p => p.savedAt
               | none => now
    group := some group }

/-- One iteration of the `SAVE_OPEN_GROUPS` upsert loop over
`idToGroup.entries()`: a closed live tab (`byId.get(id)` missing) is skipped
outright; otherwise the entry is written into the `have` map. -/
def upsertStep (byId : List (String × ChromeTab)) (now : Nat)
    (m : List (String × SavedTab)) (pr : String × String) :
    List (String × SavedTab) :=
  match mapGet byId pr.1 with
  | none => m
  | some t => mapSet m pr.1 (upsertEntry pr.1 pr.2 t (mapGet m pr.1) now)

/-- The final `have` map of the `SAVE_OPEN_GROUPS` handler. -/
def saveOpenGroupsMap (mapping : GroupingProposal) (openTabs : List ChromeTab)
    (current : List SavedTab) (now : Nat) : List (String × SavedTab) :=
  (buildIdToGroup mapping).foldl (upsertStep (buildById openTabs) now)
    (buildHave current)

/-- The `SAVE_OPEN_GROUPS` handler result: `Array.from(have.values())` plus
the reported `savedCount = idToGroup.size`. -/
def saveOpenGroups (mapping : GroupingProposal) (openTabs : List ChromeTab)
    (current : List SavedTab) (now : Nat) : List SavedTab × Nat :=
  ((saveOpenGroupsMap mapping openTabs current now).map Prod.snd,
   (buildIdToGroup mapping).length)

/-- `renameGroup` from `src/lib/storage.ts`: retag every tab whose `group`
strictly equals the old name. -/
def renameGroup (oldName newName : String) (tabs : List SavedTab) :
    List SavedTab :=
  tabs.map (fun t =>
    if t.group = some oldName then { t with group := some newName } else t)

/-- Outcome of the `RENAME_GROUP` message handler. -/
inductive RenameOutcome where
  | err (code : String)
  | ok (tabs : List SavedTab)
deriving DecidableEq, Repr

/-- The `RENAME_GROUP` handler in `src/background.ts`: a hard guard rejects
`from === "Ungrouped"` with `CANNOT_RENAME_UNGROUPED` before any storage
access; otherwise `renameGroup` runs and the updated collection is returned.
The second component is the persisted collection after the call. -/
def bgRenameGroup (src dst : String) (tabs : List SavedTab) :
    RenameOutcome × List SavedTab :=
  if src = "Ungrouped" then (.err "CANNOT_RENAME_UNGROUPED", tabs)
  else
    (.ok (renameGroup src dst tabs), renameGroup src dst tabs)

/-- Disposal mode of the `DELETE_GROUP` handler. -/
inductive DeleteMode where
  | ungroup
  | remove
deriving DecidableEq, Repr

/-- The belonging predicate of the `DELETE_GROUP` handler:
`name === "Ungrouped" ? !t.group : t.group === name`.  JS truthiness makes
`!t.group` true both when `group` is undefined and when it is `""`. -/
def belongs (name : String) (t : SavedTab) : Bool :=
  if name = "Ungrouped" then
    match t.group with
    | none => true
    | some g => g = ""
  else t.group == some name

/-- The `DELETE_GROUP` handler core: `remove` filters belonging items out,
`ungroup` clears their `group` field. -/
def bgDeleteGroup (name : String) (mode : DeleteMode) (all : List SavedTab) :
    List SavedTab :=
  match mode with
  | .remove => all.filter (fun t => !belongs name t)
  | .ungroup => all.map (fun t =>
      if belongs name t then { t with group := none } else t)

/-! ## Key/fold lemmas for the reverse index and the upsert loop -/

theorem nodup_keysOf_foldIds (g : String) (ids : List String)
    (m : List (String × String)) (h : (keysOf m).Nodup) :
    (keysOf (ids.foldl (fun m' tid => mapSet m' tid g) m)).Nodup := by
  induction ids generalizing m with
  | nil => exact h
  | cons i rest ih =>
    exact ih (mapSet m i g) (nodup_keysOf_mapSet m i g h)

theorem nodup_keysOf_buildIdToGroup (mapping : GroupingProposal) :
    (keysOf (buildIdToGroup mapping)).Nodup := by
  unfold buildIdToGroup
  suffices h : ∀ (l : GroupingProposal) (m : List (String × String)),
      (keysOf m).Nodup →
      (keysOf (l.foldl
        (fun m gp => gp.2.foldl (fun m' tid => mapSet m' tid gp.1) m) m)).Nodup by
    exact h mapping [] (by simp)
  intro l
  induction l with
  | nil => intro m hm; exact hm
  | cons gp rest ih =>
    intro m hm
    exact ih _ (nodup_keysOf_foldIds gp.1 gp.2 m hm)

theorem toFinset_keysOf_foldIds (g : String) (ids : List String)
    (m : List (String × String)) :
    (keysOf (ids.foldl (fun m' tid => mapSet m' tid g) m)).toFinset =
      (keysOf m).toFinset ∪ ids.toFinset := by
  induction ids generalizing m with
  | nil => simp
  | cons i rest ih =>
    rw [List.foldl_cons, ih (mapSet m i g), toFinset_keysOf_mapSet]
    ext a
    simp


theorem toFinset_keysOf_buildIdToGroup (mapping : GroupingProposal) :
    (keysOf (buildIdToGroup mapping)).toFinset =
      ((mapping.map Prod.snd).flatten).toFinset := by
  unfold buildIdToGroup
  suffices h : ∀ (l : GroupingProposal) (m : List (String × String)),
      (keysOf (l.foldl
        (fun m gp => gp.2.foldl (fun m' tid => mapSet m' tid gp.1) m) m)).toFinset =
        (keysOf m).toFinset ∪ ((l.map Prod.snd).flatten).toFinset by
    simpa using h mapping []
  intro l
  induction l with
  | nil => intro m; simp
  | cons gp rest ih =>
    intro m
    rw [List.foldl_cons, ih, toFinset_keysOf_foldIds]
    ext a
    simp


/-- The number of distinct identifiers occurring across all groups of a
proposal. -/
def distinctIdCount (mapping : GroupingProposal) : Nat :=
  ((mapping.map Prod.snd).flatten).toFinset.card

theorem length_buildIdToGroup (mapping : GroupingProposal) :
    (buildIdToGroup mapping).length = distinctIdCount mapping := by
  have h1 := nodup_keysOf_buildIdToGroup mapping
  have h2 := toFinset_keysOf_buildIdToGroup mapping
  calc (buildIdToGroup mapping).length
      = (keysOf (buildIdToGroup mapping)).length :=
        (length_keysOf _).symm
    _ = (keysOf (buildIdToGroup mapping)).toFinset.card :=
        (List.toFinset_card_of_nodup h1).symm
    _ = distinctIdCount mapping := by rw [h2]; rfl

/-- Every pair of a `SavedTab`-valued map stores the entry under its own id. -/
def WellKeyed (m : List (String × SavedTab)) : Prop :=
  ∀ p ∈ m, p.2.id = p.1

theorem wellKeyed_mapSet (m : List (String × SavedTab)) (k : String) (v : SavedTab)
    (hm : WellKeyed m) (hv : v.id = k) : WellKeyed (mapSet m k v) := by
  induction m with
  | nil =>
    intro p hp
    simp only [mapSet, List.mem_singleton] at hp
    subst hp; exact hv
  | cons q rest ih =>
    intro p hp
    by_cases h : q.1 = k
    · simp only [mapSet, if_pos h, List.mem_cons] at hp
      rcases hp with h1 | h2
      · subst h1; exact hv
      · exact hm p (List.mem_cons_of_mem q h2)
    · simp only [mapSet, if_neg h, List.mem_cons] at hp
      rcases hp with h1 | h2
      · subst h1; exact hm _ (List.mem_cons_self _ _)
      · exact ih (fun q hq => hm q (List.mem_cons_of_mem _ hq)) p h2

theorem wellKeyed_buildHave (current : List SavedTab) :
    WellKeyed (buildHave current) := by
  unfold buildHave
  suffices h : ∀ (l : List SavedTab) (m : List (String × SavedTab)),
      WellKeyed m → WellKeyed (l.foldl (fun m t => mapSet m t.id t) m) by
    exact h current [] (by intro p hp; simp at hp)
  intro l
  induction l with
  | nil => intro m hm; exact hm
  | cons t rest ih =>
    intro m hm
    exact ih _ (wellKeyed_mapSet m t.id t hm rfl)

theorem wellKeyed_upsertStep (byId : List (String × ChromeTab)) (now : Nat)
    (m : List (String × SavedTab)) (pr : String × String) (hm : WellKeyed m) :
    WellKeyed (upsertStep byId now m pr) := by
  unfold upsertStep
  cases mapGet byId pr.1 with
  | none => exact hm
  | some t => exact wellKeyed_mapSet m pr.1 _ hm rfl

theorem wellKeyed_saveOpenGroupsMap (mapping : GroupingProposal)
    (openTabs : List ChromeTab) (current : List SavedTab) (now : Nat) :
    WellKeyed (saveOpenGroupsMap mapping openTabs current now) := by
  unfold saveOpenGroupsMap
  suffices h : ∀ (l : List (String × String)) (m : List (String × SavedTab)),
      WellKeyed m →
      WellKeyed (l.foldl (upsertStep (buildById openTabs) now) m) by
    exact h _ _ (wellKeyed_buildHave current)
  intro l
  induction l with
  | nil => intro m hm; exact hm
  | cons pr rest ih =>
    intro m hm
    exact ih _ (wellKeyed_upsertStep _ now m pr hm)

theorem nodup_keysOf_upsertFold (byId : List (String × ChromeTab)) (now : Nat)
    (l : List (String × String)) (m : List (String × SavedTab))
    (hm : (keysOf m).Nodup) :
    (keysOf (l.foldl (upsertStep byId now) m)).Nodup := by
  induction l generalizing m with
  | nil => exact hm
  | cons pr rest ih =>
    refine ih _ ?_
    unfold upsertStep
    cases mapGet byId pr.1 with
    | none => exact hm
    | some t => exact nodup_keysOf_mapSet m pr.1 _ hm

theorem nodup_keysOf_buildHave (current : List SavedTab) :
    (keysOf (buildHave current)).Nodup := by
  unfold buildHave
  suffices h : ∀ (l : List SavedTab) (m : List (String × SavedTab)),
      (keysOf m).Nodup →
      (keysOf (l.foldl (fun m t => mapSet m t.id t) m)).Nodup by
    exact h current [] (by simp)
  intro l
  induction l with
  | nil => intro m hm; exact hm
  | cons t rest ih =>
    intro m hm
    exact ih _ (nodup_keysOf_mapSet m t.id t hm)

theorem length_buildHave_le (current : List SavedTab) :
    (buildHave current).length ≤ current.length := by
  unfold buildHave
  suffices h : ∀ (l : List SavedTab) (m : List (String × SavedTab)),
      (l.foldl (fun m t => mapSet m t.id t) m).length ≤ m.length + l.length by
    simpa using h current []
  intro l
  induction l with
  | nil => intro m; simp
  | cons t rest ih =>
    intro m
    calc (rest.foldl (fun m t => mapSet m t.id t) (mapSet m t.id t)).length
        ≤ (mapSet m t.id t).length + rest.length := ih _
      _ ≤ (m.length + 1) + rest.length :=
          Nat.add_le_add_right (length_mapSet_le m t.id t) _
      _ = m.length + (t :: rest).length := by simp; omega

theorem length_upsertFold_le (byId : List (String × ChromeTab)) (now : Nat)
    (l : List (String × String)) (m : List (String × SavedTab)) :
    (l.foldl (upsertStep byId now) m).length ≤ m.length + l.length := by
  induction l generalizing m with
  | nil => simp
  | cons pr rest ih =>
    have hstep : (upsertStep byId now m pr).length ≤ m.length + 1 := by
      unfold upsertStep
      cases mapGet byId pr.1 with
      | none => exact Nat.le_succ _
      | some t => exact length_mapSet_le m pr.1 _
    calc (rest.foldl (upsertStep byId now) (upsertStep byId now m pr)).length
        ≤ (upsertStep byId now m pr).length + rest.length := ih _
      _ ≤ (m.length + 1) + rest.length := Nat.add_le_add_right hstep _
      _ = m.length + (pr :: rest).length := by simp; omega

theorem mapGet_upsertStep_ne (byId : List (String × ChromeTab)) (now : Nat)
    (m : List (String × SavedTab)) (pr : String × String) (k : String)
    (hk : k ≠ pr.1) : mapGet (upsertStep byId now m pr) k = mapGet m k := by
  unfold upsertStep
  cases mapGet byId pr.1 with
  | none => rfl
  | some t => exact mapGet_mapSet_ne m pr.1 k _ hk

/-- Main characterisation of the `SAVE_OPEN_GROUPS` upsert loop: provided the
reverse index has no duplicate keys, the final map at identifier `k` is the
upserted entry when `k` is listed and its live tab is open, and the untouched
prior binding otherwise. -/
theorem mapGet_upsertFold (byId : List (String × ChromeTab)) (now : Nat)
    (l : List (String × String)) (hl : (keysOf l).Nodup)
    (m : List (String × SavedTab)) (k : String) :
    mapGet (l.foldl (upsertStep byId now) m) k =
      match l.find? (fun pr => pr.1 == k) with
      | none => mapGet m k
      | some pr =>
        match mapGet byId k with
        | none => mapGet m k
        | some t => some (upsertEntry k pr.2 t (mapGet m k) now) := by
  induction l generalizing m with
  | nil => rfl
  | cons pr0 rest ih =>
    have hl' : (keysOf rest).Nodup := (List.nodup_cons.mp hl).2
    by_cases hk : pr0.1 = k
    · have hnotin : k ∉ keysOf rest := by
        have := (List.nodup_cons.mp hl).1
        rw [← hk]; exact this
      have hfindrest : rest.find? (fun pr => pr.1 == k) = none := by
        rw [List.find?_eq_none]
        intro pr hpr
        simp only [beq_iff_eq]
        intro hcontra
        exact hnotin (hcontra ▸ List.mem_map_of_mem Prod.fst hpr)
      have hfind : (pr0 :: rest).find? (fun pr => pr.1 == k) = some pr0 := by
        simp [List.find?, hk]
      rw [List.foldl_cons, ih hl', hfindrest, hfind]
      unfold upsertStep
      rw [hk]
      cases hby : mapGet byId k with
      | none => rfl
      | some t => simp [mapGet_mapSet_self]
    · have hfind : (pr0 :: rest).find? (fun pr => pr.1 == k) =
          rest.find? (fun pr => pr.1 == k) := by
        have hb : (pr0.1 == k) = false := by simpa using hk
        simp [List.find?, hb]
      have hstep : mapGet (upsertStep byId now m pr0) k = mapGet m k :=
        mapGet_upsertStep_ne byId now m pr0 k (fun hh => hk hh.symm)
      rw [List.foldl_cons, ih hl', hfind, hstep]

/-- For a well-keyed map, searching the value list by id agrees with map
lookup by key. -/
theorem values_find?_eq_mapGet (m : List (String × SavedTab)) (k : String)
    (hm : WellKeyed m) :
    (m.map Prod.snd).find? (fun t => t.id == k) = mapGet m k := by
  induction m with
  | nil => rfl
  | cons p rest ih =>
    have hid : p.2.id = p.1 := hm p (List.mem_cons_self p rest)
    by_cases h : p.1 = k
    · simp [List.find?, mapGet, hid, h]
    · have hb : (p.2.id == k) = false := by simp [hid, h]
      simp only [List.map_cons, List.find?, hb, mapGet, if_neg h]
      exact ih (fun q hq => hm q (List.mem_cons_of_mem _ hq))

/-! ## Generation Client (`src/lib/gemini.ts`) -/

/-- An entry of the model catalog returned by `listModels`. -/
structure ModelMeta where
  name : String
  supportedGenerationMethods : Option (List String)
deriving DecidableEq, Repr

/-- `m.supportedGenerationMethods?.includes("generateContent")` coerced to a
boolean, as the filters in `pickBestModel` use it. -/
def supportsGenerate (m : ModelMeta) : Bool :=
  match m.supportedGenerationMethods with
  | none => false
  | some ms => ms.contains "generateContent"

/-- `PREFERRED_MODEL_IDS` from `src/lib/gemini.ts`, in order of preference. -/
def PREFERRED_MODEL_IDS : List String :=
  ["models/gemini-1.5-flash-latest",
   "models/gemini-1.5-flash",
   "models/gemini-1.5-flash-8b-latest",
   "models/gemini-1.5-flash-8b",
   "models/gemini-1.5-pro-latest",
   "models/gemini-1.5-pro",
   "models/gemini-1.0-pro"]

/-- The `allowed` set of `pickBestModel`: names of catalog models advertising
`generateContent`. -/
def allowedNames (models : List ModelMeta) : List String :=
  (models.filter supportsGenerate).map ModelMeta.name

/-- The preference scan of `pickBestModel`: the first preferred identifier
present in `allowed`, also accepting the identifier with its `-latest` suffix
dropped.  (`String.replace` replaces every occurrence whereas the JS
`String.prototype.replace` with a string pattern replaces only the first, but
`"-latest"` occurs at most once in each preferred identifier, so the two
agree on this list.) -/
def preferredFirstMatch (allowed : List String) : Option String :=
  PREFERRED_MODEL_IDS.findSome? (fun desired =>
    if allowed.contains desired then some desired
    else if desired.endsWith "-latest" then
      if allowed.contains (desired.replace "-latest" "") then
        some (desired.replace "-latest" "")
      else none
    else none)

/-- `pickBestModel` from `src/lib/gemini.ts`: preference scan first, then any
catalog model advertising `generateContent` in listed order, else failure
(the thrown `Error` is embedded as `none`). -/
def pickBestModel (models : List ModelMeta) : Option String :=
  match preferredFirstMatch (allowedNames models) with
  | some n => some n
  | none => (models.find? supportsGenerate).map ModelMeta.name

/-! ### The `is404` model-unavailable classifier

`summarizeTabs`, `groupTabsByIdStrict` and `summarizePage` all classify a
caught error `e` with the same two regular-expression tests on `e.message`:
an occurrence of `404` delimited by start/end, whitespace, `{`, `"` on the
left and whitespace, `}`, `"`, `,` on the right, together with an occurrence
of one of the substrings `NOT_FOUND`, `is not found`, `not supported`. -/

/-- ASCII approximation of the JS regex whitespace class `\s`. -/
def jsWhite (c : Char) : Bool :=
  c = ' ' || c = '\t' || c = '\n' || c = '\r' || c = '\x0b' || c = '\x0c'

def lbrace : Char := Char.ofNat 123

def rbrace : Char := Char.ofNat 125

/-- Left delimiter class of the `404` regex. -/
def leftDelim (c : Char) : Bool := jsWhite c || c = lbrace || c = '"'

/-- Right delimiter class of the `404` regex. -/
def rightDelim (c : Char) : Bool := jsWhite c || c = rbrace || c = '"' || c = ','

/-- Scans for a delimited occurrence of `404`, carrying the previous
character. -/
def hasDelimited404 : Option Char → List Char → Bool
  | _, [] => false
  | prev, c :: rest =>
    (c == '4' &&
      (match rest with
       | '0' :: '4' :: rest2 =>
         (match prev with
          | none => true
          | some p => leftDelim p) &&
         (match rest2 with
          | [] => true
          | d :: _ => rightDelim d)
       | _ => false)) ||
    hasDelimited404 (some c) rest

/-- Substring containment on character lists. -/
def containsSeq : List Char → List Char → Bool
  | [], pat => pat.isEmpty
  | c :: rest, pat => pat.isPrefixOf (c :: rest) || containsSeq rest pat

/-- The `is404` test shared verbatim by the three generation wrappers. -/
def is404Error (msg : String) : Bool :=
  hasDelimited404 none msg.data &&
  (containsSeq msg.data "NOT_FOUND".data ||
   containsSeq msg.data "is not found".data ||
   containsSeq msg.data "not supported".data)

/-- The network effects one generation call can observe, embedded as an
oracle: the outcome of the first `postGenerateContent` attempt with the
hard-coded flash model, the outcome of `listModels`, and the outcome of the
retry attempt as a function of the resolved model name.  Errors are their
message strings. -/
structure GenEnv where
  firstAttempt : Except String String
  catalog : Except String (List ModelMeta)
  retryAttempt : String → Except String String

/-- `resolveUsableModel`: `listModels` then `pickBestModel`; an empty pick
becomes the thrown no-usable-backend error. -/
def resolveUsableModel (env : GenEnv) : Except String String :=
  match env.catalog with
  | .error e => .error e
  | .ok models =>
    match pickBestModel models with
    | some n => .ok n
    | none => .error
        "No Gemini model with generateContent is available for this API key/project."

/-- The try/catch fallback shape shared by `summarizeTabs`,
`groupTabsByIdStrict` and `summarizePage`: one first attempt; on a failure
classified by `is404Error`, resolve a usable model and retry exactly once;
any other failure is rethrown.  The second component counts the
`postGenerateContent` generation attempts performed. -/
def generateWithFallback (env : GenEnv) : Except String String × Nat :=
  match env.firstAttempt with
  | .ok s => (.ok s, 1)
  | .error e =>
    if is404Error e then
      match resolveUsableModel env with
      | .error e2 => (.error e2, 1)
      | .ok m => (env.retryAttempt m, 2)
    else (.error e, 1)

/-- `summarizeTabs` (`src/lib/gemini.ts`, lines 113–143): its control flow
around `postGenerateContent` is exactly `generateWithFallback`; the prompt
text does not influence the retry behaviour. -/
def summarizeTabsRun (env : GenEnv) : Except String String × Nat :=
  generateWithFallback env

/-- `groupTabsByIdStrict` (`src/lib/gemini.ts`, lines 145–180): same
fallback control flow. -/
def groupTabsByIdStrictRun (env : GenEnv) : Except String String × Nat :=
  generateWithFallback env

/-- `summarizePage` (`src/lib/gemini.ts`, lines 182–213): same fallback
control flow. -/
def summarizePageRun (env : GenEnv) : Except String String × Nat :=
  generateWithFallback env

/-! ## Response Normalizer fence stripping (`src/sidebar/Sidebar.tsx`) -/

/-- JS `String.prototype.trim` over characters (ASCII whitespace class). -/
def jsTrim (s : List Char) : List Char :=
  ((s.dropWhile jsWhite).reverse.dropWhile jsWhite).reverse

/-- The three-character formatting-fence marker. -/
def fenceMarker : List Char := "```".data

/-- JS `lastIndexOf` for a single character. -/
def lastIndexOfChar (l : List Char) (c : Char) : Option Nat :=
  match l.reverse.findIdx? (fun d => d == c) with
  | none => none
  | some i => some (l.length - 1 - i)

/-- The fence-stripping step of `autoGroupSaved`: trim; if the text starts
with the fence marker and contains a `{` before a later `}`, slice from the
first `{` to the last `}` inclusive; otherwise keep the trimmed text. -/
def stripFences (raw : List Char) : List Char :=
  let t := jsTrim raw
  if fenceMarker.isPrefixOf t then
    match t.findIdx? (fun c => c == lbrace), lastIndexOfChar t rbrace with
    | some f, some l => if f < l then (t.drop f).take (l + 1 - f) else t
    | some _, none => t
    | none, _ => t
  else t

/-! ## Claim theorems -/

/-- C5: for every collection state and every target name, a rename whose
source group is the reserved name "Ungrouped" fails with the
`CANNOT_RENAME_UNGROUPED` error and performs no mutation: the persisted
collection is returned unchanged. -/
theorem C5_rename_ungrouped_guard :
    ∀ (dst : String) (tabs : List SavedTab),
      bgRenameGroup "Ungrouped" dst tabs =
        (RenameOutcome.err "CANNOT_RENAME_UNGROUPED", tabs) := by
  intro dst tabs
  simp [bgRenameGroup]

/-- C10: the count reported by `APPLY_GROUPS` and the `savedCount` reported
by `SAVE_OPEN_GROUPS` both equal the number of distinct identifiers across
all groups of the proposal, regardless of how many collection entries were
actually created or updated; in particular a proposal naming two ids against
an empty collection and no open tabs changes nothing yet reports 2. -/
theorem C10_reported_count_is_distinct_ids :
    (∀ (mapping : GroupingProposal) (all : List SavedTab),
      (applyGroups mapping all).2 = distinctIdCount mapping) ∧
    (∀ (mapping : GroupingProposal) (openTabs : List ChromeTab)
        (current : List SavedTab) (now : Nat),
      (saveOpenGroups mapping openTabs current now).2 = distinctIdCount mapping) ∧
    (applyGroups [("Research", ["1", "2"])] [] =
      ([], 2)) ∧
    (saveOpenGroups [("Research", ["1", "2"])] [] [] 0 =
      ([], 2)) := by
  refine ⟨?_, ?_, by decide, by decide⟩
  · intro mapping all
    simp only [applyGroups]
    exact length_buildIdToGroup mapping
  · intro mapping openTabs current now
    simp only [saveOpenGroups]
    exact length_buildIdToGroup mapping

/-- C1: applying the upsert-by-grouping-from-live-tabs operation
(`SAVE_OPEN_GROUPS`) yields a collection whose size exceeds the prior
collection's size by at most the number of distinct identifiers in the
proposal, and in which no two entries share the same id. -/
theorem C1_upsert_invariant :
    ∀ (mapping : GroupingProposal) (openTabs : List ChromeTab)
      (current : List SavedTab) (now : Nat),
      (saveOpenGroups mapping openTabs current now).1.length ≤
        current.length + distinctIdCount mapping ∧
      ((saveOpenGroups mapping openTabs current now).1.map SavedTab.id).Nodup := by
  intro mapping openTabs current now
  constructor
  · simp only [saveOpenGroups, List.length_map]
    calc (saveOpenGroupsMap mapping openTabs current now).length
        ≤ (buildHave current).length + (buildIdToGroup mapping).length :=
          length_upsertFold_le _ now _ _
      _ ≤ current.length + distinctIdCount mapping := by
          have h1 := length_buildHave_le current
          have h2 := length_buildIdToGroup mapping
          omega
  · have hwk := wellKeyed_saveOpenGroupsMap mapping openTabs current now
    have hmapeq : (saveOpenGroups mapping openTabs current now).1.map SavedTab.id =
        keysOf (saveOpenGroupsMap mapping openTabs current now) := by
      simp only [saveOpenGroups, List.map_map, keysOf]
      exact List.map_congr_left (fun p hp => hwk p hp)
    rw [hmapeq]
    exact nodup_keysOf_upsertFold _ now _ _ (nodup_keysOf_buildHave current)

/-- C2: concretely, proposal `Research ↦ ["1", "2"]` with only tab `"1"` open
produces exactly one new SavedItem (id `"1"`, group `"Research"`) and id
`"2"` is skipped with no error and no partial entry; in general an upserted
entry keeps `savedAt` from the pre-existing entry with the same id when one
exists (else the current time) while `title`/`url`/`favIconUrl` are
overwritten from the live tab, and an identifier whose live tab is closed
leaves the prior binding for that id untouched. -/
theorem C2_open_tab_upsert :
    (saveOpenGroups [("Research", ["1", "2"])]
        [⟨some 1, some "Tab One", some "https://one.example", none⟩] [] 42 =
      ([{ id := "1", title := "Tab One", url := "https://one.example",
          favIconUrl := some "", savedAt := 42, group := some "Research" }], 2)) ∧
    (∀ (mapping : GroupingProposal) (openTabs : List ChromeTab)
        (current : List SavedTab) (now : Nat) (tid g : String) (t : ChromeTab),
      mapGet (buildIdToGroup mapping) tid = some g →
      mapGet (buildById openTabs) tid = some t →
      (saveOpenGroups mapping openTabs current now).1.find?
          (fun s => s.id == tid) =
        some (upsertEntry tid g t (mapGet (buildHave current) tid) now)) ∧
    (∀ (mapping : GroupingProposal) (openTabs : List ChromeTab)
        (current : List SavedTab) (now : Nat) (tid : String),
      mapGet (buildById openTabs) tid = none →
      (saveOpenGroups mapping openTabs current now).1.find?
          (fun s => s.id == tid) =
        mapGet (buildHave current) tid) := by
  refine ⟨by decide, ?_, ?_⟩
  · intro mapping openTabs current now tid g t h1 h2
    have hwk := wellKeyed_saveOpenGroupsMap mapping openTabs current now
    have hval := values_find?_eq_mapGet _ tid hwk
    simp only [saveOpenGroups]
    rw [hval]
    unfold saveOpenGroupsMap
    rw [mapGet_upsertFold (buildById openTabs) now _
      (nodup_keysOf_buildIdToGroup mapping) (buildHave current) tid]
    simp only [find?_eq_some_of_mapGet _ _ _ h1, h2]
  · intro mapping openTabs current now tid h2
    have hwk := wellKeyed_saveOpenGroupsMap mapping openTabs current now
    have hval := values_find?_eq_mapGet _ tid hwk
    simp only [saveOpenGroups]
    rw [hval]
    unfold saveOpenGroupsMap
    rw [mapGet_upsertFold (buildById openTabs) now _
      (nodup_keysOf_buildIdToGroup mapping) (buildHave current) tid]
    cases hf : (buildIdToGroup mapping).find? (fun pr => pr.1 == tid) with
    | none => rfl
    | some pr => simp [h2]

/-- Witness for C2: the general upsert equation applied at a concrete state
with a pre-existing entry, whose `savedAt` (99) is preserved while title and
url are refreshed from the live tab. -/
theorem C2_open_tab_upsert_witness :
    (saveOpenGroups [("G", ["7"])]
        [⟨some 7, some "New", some "nu", some "icon"⟩]
        [⟨"7", "Old", "ou", none, 99, some "X"⟩] 1000).1.find?
        (fun s => s.id == "7") =
      some (upsertEntry "7" "G" ⟨some 7, some "New", some "nu", some "icon"⟩
        (mapGet (buildHave [⟨"7", "Old", "ou", none, 99, some "X"⟩]) "7") 1000) :=
  C2_open_tab_upsert.2.1 [("G", ["7"])]
    [⟨some 7, some "New", some "nu", some "icon"⟩]
    [⟨"7", "Old", "ou", none, 99, some "X"⟩] 1000 "7" "G"
    ⟨some 7, some "New", some "nu", some "icon"⟩ (by decide) (by decide)

/-- Concrete item used to refute C3 as stated. -/
def c3tab : SavedTab :=
  { id := "1", title := "t", url := "u", favIconUrl := none,
    savedAt := 0, group := none }

/-- C3 counterexample: with proposal mapping the empty-string group name to
id "1", the id appears in the reverse index, yet `APPLY_GROUPS` leaves the
item unchanged (its `group` is not set to the mapped name), because the
handler's JS truthiness test `g ? ... : t` treats the empty string as
falsy. -/
theorem C3_counterexample :
    mapGet (buildIdToGroup [("", ["1"])]) "1" = some "" ∧
    (applyGroups [("", ["1"])] [c3tab]).1 = [c3tab] ∧
    c3tab.group ≠ some "" := by decide

/-- C3 (amended): every existing SavedItem whose id appears in the proposal's
reverse index with a non-empty group name has its `group` set to the mapped
name and no other field changed; an id mapped to the empty-string group name
leaves its item unchanged; every item whose id is absent from the reverse
index is returned unchanged; no item is added or removed; identifiers that
match no saved item are silently dropped (the output is a positional map of
the input). -/
theorem C3_apply_groups_frame :
    ∀ (mapping : GroupingProposal) (all : List SavedTab),
      ((applyGroups mapping all).1.length = all.length) ∧
      (∀ i t g, all.get? i = some t →
        mapGet (buildIdToGroup mapping) t.id = some g → g ≠ "" →
        (applyGroups mapping all).1.get? i = some { t with group := some g }) ∧
      (∀ i t, all.get? i = some t →
        mapGet (buildIdToGroup mapping) t.id = some "" →
        (applyGroups mapping all).1.get? i = some t) ∧
      (∀ i t, all.get? i = some t →
        mapGet (buildIdToGroup mapping) t.id = none →
        (applyGroups mapping all).1.get? i = some t) := by
  intro mapping all
  refine ⟨by simp [applyGroups], ?_, ?_, ?_⟩
  · intro i t g hget hmap hne
    simp only [applyGroups, List.get?_map, hget, Option.map_some', hmap]
    rw [if_neg hne]
  · intro i t hget hmap
    simp only [applyGroups, List.get?_map, hget, Option.map_some', hmap,
      if_true, eq_self_iff_true]
  · intro i t hget hmap
    simp only [applyGroups, List.get?_map, hget, Option.map_some', hmap]

/-- Witness for C3 (amended): a concrete application setting the group. -/
theorem C3_apply_groups_frame_witness :
    (applyGroups [("G", ["1"])] [c3tab]).1.get? 0 =
      some { id := "1", title := "t", url := "u", favIconUrl := none,
             savedAt := 0, group := some "G" } :=
  (C3_apply_groups_frame [("G", ["1"])] [c3tab]).2.1 0 c3tab "G"
    rfl (by decide) (by decide)

theorem length_filter_not_add {α : Type} (p : α → Bool) (l : List α) :
    (l.filter (fun a => !p a)).length + (l.filter p).length = l.length := by
  induction l with
  | nil => rfl
  | cons a rest ih =>
    by_cases h : p a
    · simp [List.filter_cons, h]
      omega
    · simp [List.filter_cons, h]
      omega

/-- Concrete item used to refute C4 as stated: its `group` is set, to the
empty string. -/
def c4tab : SavedTab :=
  { id := "1", title := "t", url := "u", favIconUrl := none,
    savedAt := 0, group := some "" }

/-- C4 counterexample: `deleteGroup("Ungrouped", "remove")` deletes an item
whose `group` field is set (to `""`), so the collection shrinks by one even
though zero items have their group unset — the belonging predicate for the
reserved name is not `group is unset` but the JS-falsiness test `!t.group`,
which also matches the empty string. -/
theorem C4_counterexample :
    bgDeleteGroup "Ungrouped" DeleteMode.remove [c4tab] = [] ∧
    c4tab.group ≠ none := by decide

/-- C4 (amended): `deleteGroup(name, "remove")` leaves no belonging item and
decreases the total count by exactly the number of belonging items;
`deleteGroup(name, "ungroup")` preserves the count, clears the group of every
belonging item and leaves the others unchanged; the belonging predicate is
`item.group == name`, except when `name` is the reserved "Ungrouped" name, in
which case it is `item.group` unset *or equal to the empty string*. -/
theorem C4_delete_group_modes :
    ∀ (name : String) (all : List SavedTab),
      ((bgDeleteGroup name DeleteMode.remove all).length +
        (all.filter (fun t => belongs name t)).length = all.length) ∧
      (∀ t ∈ bgDeleteGroup name DeleteMode.remove all,
        belongs name t = false) ∧
      ((bgDeleteGroup name DeleteMode.ungroup all).length = all.length) ∧
      (∀ i t, all.get? i = some t →
        (bgDeleteGroup name DeleteMode.ungroup all).get? i =
          some (if belongs name t then { t with group := none } else t)) ∧
      (∀ t, belongs name t = true ↔
        (if name = "Ungrouped" then t.group = none ∨ t.group = some ""
         else t.group = some name)) := by
  intro name all
  refine ⟨?_, ?_, ?_, ?_, ?_⟩
  · exact length_filter_not_add (fun t => belongs name t) all
  · intro t ht
    have := (List.mem_filter.mp ht).2
    simpa using this
  · simp [bgDeleteGroup]
  · intro i t hget
    simp only [bgDeleteGroup, List.get?_map, hget, Option.map_some']
  · intro t
    by_cases h : name = "Ungrouped"
    · subst h
      cases hg : t.group with
      | none => simp [belongs, hg]
      | some g =>
        simp only [belongs, if_pos rfl, hg, if_true, decide_eq_true_eq]
        constructor
        · intro hgg; right; rw [hgg]
        · intro hor
          rcases hor with h1 | h2
          · cases h1
          · injection h2
    · simp [belongs, h]

/-- Concrete item used by the C4 witness. -/
def c4wtab : SavedTab :=
  { id := "1", title := "t", url := "u", favIconUrl := none,
    savedAt := 0, group := some "B" }

/-- Witness for C4 (amended): ungroup mode at a concrete collection clears
the matching item's group. -/
theorem C4_delete_group_modes_witness :
    (bgDeleteGroup "B" DeleteMode.ungroup [c4wtab]).get? 0 =
      some (if belongs "B" c4wtab then { c4wtab with group := none }
            else c4wtab) :=
  (C4_delete_group_modes "B" [c4wtab]).2.2.2.1 0 c4wtab rfl

/-- Concrete item used to refute C6 as stated. -/
def c6tab : SavedTab :=
  { id := "1", title := "t", url := "u", favIconUrl := none,
    savedAt := 0, group := some "Work" }

/-- C6 counterexample: the `RENAME_GROUP` handler only guards the rename
*source*; renaming group "Work" *to* "Ungrouped" succeeds and persists the
literal string "Ungrouped" in the item's `group` field, contradicting
"never persisted as a rename target". -/
theorem C6_counterexample :
    (bgRenameGroup "Work" "Ungrouped" [c6tab]).2.map SavedTab.group =
      [some "Ungrouped"] := by decide

/-- C6 (amended): the reserved name is guarded only as a rename source; a
rename whose *target* is not "Ungrouped", applied to a collection in which
no item's persisted group is "Ungrouped", leaves no item with persisted
group "Ungrouped". -/
theorem C6_rename_target_guarded :
    ∀ (src dst : String) (tabs : List SavedTab),
      dst ≠ "Ungrouped" →
      tabs.all (fun t => !(t.group == some "Ungrouped")) = true →
      ((bgRenameGroup src dst tabs).2.all
        (fun t => !(t.group == some "Ungrouped"))) = true := by
  intro src dst tabs hdst htabs
  by_cases hsrc : src = "Ungrouped"
  · simpa [bgRenameGroup, hsrc] using htabs
  · simp only [bgRenameGroup, if_neg hsrc]
    rw [List.all_eq_true] at htabs ⊢
    intro t ht
    simp only [renameGroup, List.mem_map] at ht
    obtain ⟨t0, ht0, rfl⟩ := ht
    by_cases hg : t0.group = some src
    · simp only [if_pos hg, Bool.not_eq_true', beq_eq_false_iff_ne, ne_eq,
        Option.some.injEq]
      intro hcontra
      exact hdst hcontra
    · simpa [if_neg hg] using htabs t0 ht0

/-- Witness for C6 (amended): a concrete rename away from "Ungrouped". -/
theorem C6_rename_target_guarded_witness :
    ((bgRenameGroup "A" "B"
        [{ id := "1", title := "t", url := "u", favIconUrl := none,
           savedAt := 0, group := some "A" }]).2.all
      (fun t => !(t.group == some "Ungrouped"))) = true :=
  C6_rename_target_guarded "A" "B"
    [{ id := "1", title := "t", url := "u", favIconUrl := none,
       savedAt := 0, group := some "A" }] (by decide) (by decide)

/-- The C7 scenario catalog: capability advertised for [B, A, C] in catalog
order, where the preference order ranks A (flash-latest) before B (flash)
before C (pro). -/
def demoCatalog : List ModelMeta :=
  [{ name := "models/gemini-1.5-flash", supportedGenerationMethods := some ["generateContent"] },
   { name := "models/gemini-1.5-flash-latest", supportedGenerationMethods := some ["generateContent"] },
   { name := "models/gemini-1.5-pro", supportedGenerationMethods := some ["generateContent"] }]

/-- C7: backend resolution returns the first preferred identifier present in
the capability-advertising set (`preferredFirstMatch`, which also accepts the
non-"-latest" variant); when no preferred identifier matches it returns the
first capability-advertising catalog model in listed order; when none
advertises the capability it fails (`none`); any selected name advertises the
capability; and on the concrete catalog [B, A, C] it selects A. -/
theorem C7_model_resolution :
    (pickBestModel demoCatalog = some "models/gemini-1.5-flash-latest") ∧
    (∀ models : List ModelMeta,
      (pickBestModel models = none ↔ ∀ m ∈ models, supportsGenerate m = false)) ∧
    (∀ (models : List ModelMeta) (n : String),
      pickBestModel models = some n → n ∈ allowedNames models) ∧
    (∀ (models : List ModelMeta) (n : String),
      preferredFirstMatch (allowedNames models) = some n →
      pickBestModel models = some n) ∧
    (∀ models : List ModelMeta,
      preferredFirstMatch (allowedNames models) = none →
      pickBestModel models = (models.find? supportsGenerate).map ModelMeta.name) := by
  refine ⟨by decide, ?_, ?_, ?_, ?_⟩
  · intro models
    constructor
    · intro hnone
      unfold pickBestModel at hnone
      cases hpf : preferredFirstMatch (allowedNames models) with
      | some n => rw [hpf] at hnone; exact absurd hnone (by simp)
      | none =>
        rw [hpf] at hnone
        have hfind : models.find? supportsGenerate = none := by
          cases hf : models.find? supportsGenerate with
          | none => rfl
          | some m => rw [hf] at hnone; exact absurd hnone (by simp)
        intro m hm
        have := List.find?_eq_none.mp hfind m hm
        simpa using this
    · intro hall
      have hallowed : allowedNames models = [] := by
        unfold allowedNames
        have : models.filter supportsGenerate = [] := by
          rw [List.filter_eq_nil_iff]
          intro m hm
          simp [hall m hm]
        rw [this]; rfl
      have hfind : models.find? supportsGenerate = none :=
        List.find?_eq_none.mpr (fun m hm => by simp [hall m hm])
      unfold pickBestModel
      rw [hallowed, hfind]
      have hempty : preferredFirstMatch [] = none := by
        simp [preferredFirstMatch, List.findSome?_cons]
      rw [hempty]
      rfl
  · intro models n hpick
    unfold pickBestModel at hpick
    cases hpf : preferredFirstMatch (allowedNames models) with
    | some n' =>
      rw [hpf] at hpick
      have heq : n' = n := by simpa using hpick
      obtain ⟨d, hdmem, hd⟩ := List.exists_of_findSome?_eq_some hpf
      rw [← heq]
      by_cases h1 : (allowedNames models).contains d
      · rw [if_pos h1] at hd
        have hdn : d = n' := by simpa using hd
        rw [← hdn]
        simpa using h1
      · rw [if_neg h1] at hd
        by_cases h2 : d.endsWith "-latest"
        · rw [if_pos h2] at hd
          by_cases h3 : (allowedNames models).contains (d.replace "-latest" "")
          · rw [if_pos h3] at hd
            have hdn : d.replace "-latest" "" = n' := by simpa using hd
            rw [← hdn]
            simpa using h3
          · rw [if_neg h3] at hd; cases hd
        · rw [if_neg h2] at hd; cases hd
    | none =>
      rw [hpf] at hpick
      cases hf : models.find? supportsGenerate with
      | none => rw [hf] at hpick; cases hpick
      | some m =>
        rw [hf] at hpick
        have heq : m.name = n := by simpa using hpick
        rw [← heq]
        unfold allowedNames
        exact List.mem_map_of_mem ModelMeta.name
          (List.mem_filter.mpr
            ⟨List.mem_of_find?_eq_some hf, List.find?_some hf⟩)
  · intro models n hpf
    unfold pickBestModel
    rw [hpf]
  · intro models hpf
    unfold pickBestModel
    rw [hpf]

/-- Witness for C7: the selected model on the scenario catalog is in the
capability-advertising set. -/
theorem C7_model_resolution_witness :
    "models/gemini-1.5-flash-latest" ∈ allowedNames demoCatalog :=
  C7_model_resolution.2.2.1 demoCatalog "models/gemini-1.5-flash-latest"
    (by decide)

/-- C8: every generation call (`summarizeTabs`, `groupTabsByIdStrict`,
`summarizePage`) performs at most two generation attempts; the single retry
with the resolved backend happens exactly when the first attempt fails with
the model-unavailable class of error (`is404Error`) and a backend resolves;
any non-404-class failure of the first attempt propagates unchanged with no
retry; there is no unbounded retry loop. -/
theorem C8_retry_once_bounded :
    ∀ env : GenEnv,
      ((summarizeTabsRun env).2 ≤ 2 ∧ (groupTabsByIdStrictRun env).2 ≤ 2 ∧
        (summarizePageRun env).2 ≤ 2) ∧
      ((generateWithFallback env).2 = 2 ↔
        ∃ e m, env.firstAttempt = .error e ∧ is404Error e = true ∧
          resolveUsableModel env = .ok m) ∧
      (∀ e, env.firstAttempt = .error e → is404Error e = false →
        generateWithFallback env = (.error e, 1)) ∧
      (∀ e m, env.firstAttempt = .error e → is404Error e = true →
        resolveUsableModel env = .ok m →
        generateWithFallback env = (env.retryAttempt m, 2)) := by
  intro env
  have hcount : (generateWithFallback env).2 ≤ 2 := by
    unfold generateWithFallback
    cases env.firstAttempt with
    | ok s => simp
    | error e =>
      by_cases h4 : is404Error e
      · simp only [h4, if_true]
        cases resolveUsableModel env with
        | error e2 => simp
        | ok m => simp
      · simp [h4]
  refine ⟨⟨hcount, hcount, hcount⟩, ?_, ?_, ?_⟩
  · constructor
    · intro h2
      cases hfa : env.firstAttempt with
      | ok s => simp [generateWithFallback, hfa] at h2
      | error e =>
        by_cases h4 : is404Error e
        · cases hres : resolveUsableModel env with
          | error e2 => simp [generateWithFallback, hfa, h4, hres] at h2
          | ok m => exact ⟨e, m, rfl, h4, rfl⟩
        · simp [generateWithFallback, hfa, h4] at h2
    · rintro ⟨e, m, he, h4, hres⟩
      simp [generateWithFallback, he, h4, hres]
  · intro e hfa h4
    simp [generateWithFallback, hfa, h4]
  · intro e m hfa h4 hres
    simp [generateWithFallback, hfa, h4, hres]

/-- Concrete environment for the C8 witness: a first attempt failing with a
non-404 error. -/
def c8env : GenEnv :=
  { firstAttempt := .error "Gemini v1 500: internal error"
    catalog := .ok []
    retryAttempt := fun _ => .ok "unused" }

/-- Witness for C8: a non-404 first failure propagates with one attempt and
no retry. -/
theorem C8_retry_once_bounded_witness :
    generateWithFallback c8env = (.error "Gemini v1 500: internal error", 1) :=
  (C8_retry_once_bounded c8env).2.2.1 "Gemini v1 500: internal error"
    rfl (by decide)

/-- C9: fence-stripping is a no-op whenever the trimmed raw text does not
begin with the fence marker (the trimmed text is parsed directly, and a raw
text with no surrounding whitespace is kept verbatim); when the trimmed text
does begin with the fence marker and contains a first `{` strictly before the
last `}`, the substring from that `{` to that `}` inclusive is extracted
instead. -/
theorem C9_fence_stripping :
    ∀ raw : List Char,
      (fenceMarker.isPrefixOf (jsTrim raw) = false →
        stripFences raw = jsTrim raw) ∧
      (fenceMarker.isPrefixOf (jsTrim raw) = false → jsTrim raw = raw →
        stripFences raw = raw) ∧
      (∀ f l, fenceMarker.isPrefixOf (jsTrim raw) = true →
        (jsTrim raw).findIdx? (fun c => c == lbrace) = some f →
        lastIndexOfChar (jsTrim raw) rbrace = some l → f < l →
        stripFences raw = ((jsTrim raw).drop f).take (l + 1 - f)) := by
  intro raw
  refine ⟨?_, ?_, ?_⟩
  · intro hpre
    simp [stripFences, hpre]
  · intro hpre htrim
    have h1 : stripFences raw = jsTrim raw := by simp [stripFences, hpre]
    rw [h1, htrim]
  · intro f l hpre hf hl hfl
    simp [stripFences, hpre, hf, hl, hfl]

/-- Concrete fenced input for the C9 witness. -/
def c9raw : List Char := fenceMarker ++ [lbrace, 'a', rbrace]

/-- Witness for C9: stripping the concrete fenced input extracts the braced
payload. -/
theorem C9_fence_stripping_witness :
    stripFences c9raw = ((jsTrim c9raw).drop 3).take (5 + 1 - 3) :=
  (C9_fence_stripping c9raw).2.2 3 5 (by decide) (by decide) (by decide)
    (by decide)
